import Mathlib

/-!
Shallow embedding of the Employee-Appraisal service (src/tool.py, src/api.py,
src/app.py) and proofs about its specification claims.

Conventions of the embedding:
* Python strings are Lean `String`s; character-level operations (join/split on
  the `"||"` delimiter, `str.replace`) are modelled on `List Char`, the data of
  a `String`.
* The Chroma collection is modelled as a list of `IndexEntry` (one per stored
  document, carrying its metadata and id); `None`/absent collection is
  `Option.none`.
* `random.shuffle` is modelled by quantifying over an arbitrary
  permutation-producing function.
* The external LLM call `get_feedback` is modelled as an oracle
  `Nat → Nat → String → Except String String`; `Except.error` is a raised
  exception.
* Python floats are modelled at rational precision (`ℚ`); `round(x, 2)` and
  the `:.1f` format are modelled by rational rounding.
-/

deriving instance DecidableEq for Except

/-- A question of the knowledge base / API: `{"question", "options", "answer"}`
(`QuestionModel` in src/api.py). -/
structure Question where
  question : String
  options : List String
  answer : String
deriving DecidableEq, Repr

/-- One stored record of the Chroma collection: its id plus the metadata dict
written by `setup_knowledge_base` (src/tool.py lines 69-76). -/
structure IndexEntry where
  id : String
  role : String
  full_question : String
  options : String
  answer : String
deriving DecidableEq, Repr

/-- A knowledge bank: the JSON dict role ↦ question list, as an association
list in insertion order (Python dicts preserve insertion order and have
distinct keys). -/
abbrev Bank := List (String × List Question)

/-! ## Character-level string operations

Python `"||".join(xs)` and `s.split("||")` from src/tool.py lines 72 and 95,
modelled on `List Char`. `split` scans left to right, always consuming the
leftmost occurrence of the two-character delimiter, exactly as Python's
`str.split` with a non-empty separator. -/

/-- `"||".join`: intercalate the two-character delimiter. -/
def join2bar : List (List Char) → List Char
  | [] => []
  | [x] => x
  | x :: xs => x ++ '|' :: '|' :: join2bar xs

/-- Prepend a character to the first piece of a split result. -/
def consHead (c : Char) : List (List Char) → List (List Char)
  | [] => [[c]]
  | p :: ps => (c :: p) :: ps

/-- `.split("||")`: greedy left-to-right split on the two-character
delimiter. -/
def split2bar : List Char → List (List Char)
  | [] => [[]]
  | '|' :: '|' :: rest => [] :: split2bar rest
  | c :: rest => consHead c (split2bar rest)

/-- `"||".join(xs)` on `String`s (src/tool.py line 72). -/
def joinOpts (xs : List String) : String :=
  ⟨join2bar (xs.map String.data)⟩

/-- `s.split("||")` on `String`s (src/tool.py line 95). -/
def splitOpts (s : String) : List String :=
  (split2bar s.data).map String.mk

/-! ## Id derivation (src/tool.py line 76) -/

/-- Decimal digits of a natural number, most significant first, with explicit
recursion fuel (the fuel only bounds the recursion depth; `natChars` always
supplies enough). -/
def natCharsCore : Nat → Nat → List Char
  | 0, _ => []
  | fuel + 1, n =>
    if n < 10 then [Nat.digitChar n]
    else natCharsCore fuel (n / 10) ++ [Nat.digitChar (n % 10)]

/-- Decimal digits of a natural number, most significant first: Python
`str(i)` for a non-negative int. -/
def natChars (n : Nat) : List Char :=
  natCharsCore (n + 1) n

/-- `role.replace(' ', '_')`: replace every space by an underscore. -/
def replaceSpaces (role : String) : List Char :=
  role.data.map (fun c => if c = ' ' then '_' else c)

/-- `f"{role.replace(' ', '_')}_{i}"` (src/tool.py line 76). -/
def idOf (role : String) (i : Nat) : String :=
  ⟨replaceSpaces role ++ '_' :: natChars i⟩

/-! ## Knowledge-base reconciliation (src/tool.py, `setup_knowledge_base`) -/

/-- The entry written for question `q`, ordinal `i`, of role `role`
(src/tool.py lines 68-76). -/
def mkEntry (role : String) (i : Nat) (q : Question) : IndexEntry :=
  { id := idOf role i
    role := role
    full_question := q.question
    options := joinOpts q.options
    answer := q.answer }

/-- The population loop of `setup_knowledge_base` (src/tool.py lines 65-77):
every role and every question in bank order, each question getting its
sequential ordinal within its role, starting at 0. -/
def populate (kb : Bank) : List IndexEntry :=
  kb.flatMap (fun rq => rq.2.enum.map (fun iq => mkEntry rq.1 iq.1 iq.2))

/-- The set of distinct roles of the bank (`set(KNOWLEDGE_BASE.keys())`,
src/tool.py line 37). -/
def rolesOfBank (kb : Bank) : Finset String :=
  (kb.map Prod.fst).toFinset

/-- The set of distinct roles appearing in the collection's metadata
(src/tool.py lines 42-47). -/
def rolesOfEntries (entries : List IndexEntry) : Finset String :=
  (entries.map IndexEntry.role).toFinset

/-- Whether `setup_knowledge_base` repopulates: the collection is missing
(`ValueError` branch, line 55), its role set differs from the bank's
(lines 49-52), or it is empty (`count() == 0`, line 63). -/
def repopulates (kb : Bank) (st : Option (List IndexEntry)) : Bool :=
  match st with
  | none => true
  | some entries =>
    decide (rolesOfEntries entries ≠ rolesOfBank kb) || entries.isEmpty

/-- `setup_knowledge_base` (src/tool.py lines 31-82) as a function from the
persisted collection state to the collection contents it leaves behind: if a
rebuild is required the old collection is deleted and repopulated from the
bank; otherwise the existing entries are kept unchanged. -/
def setup_knowledge_base (kb : Bank) (st : Option (List IndexEntry)) :
    List IndexEntry :=
  if repopulates kb st then populate kb else st.getD []

/-! ## Sampler (src/tool.py, `get_questions_for_role`) -/

/-- The metadata records returned by
`vector_store._collection.get(where={"role": role})` (src/tool.py line 85). -/
def roleMetadatas (index : List IndexEntry) (role : String) :
    List IndexEntry :=
  index.filter (fun e => e.role = role)

/-- Rebuild a question object from a stored record (src/tool.py
lines 92-98). -/
def toQuestion (e : IndexEntry) : Question :=
  { question := e.full_question
    options := splitOpts e.options
    answer := e.answer }

/-- `get_questions_for_role` (src/tool.py lines 84-101): fetch the role's
records, return `[]` when there are none, otherwise rebuild question objects,
shuffle, and take the first `num_questions`. `random.shuffle` is the
`shuffle` argument; theorems assume only that it permutes its input. -/
def get_questions_for_role (index : List IndexEntry) (role : String)
    (num_questions : Nat) (shuffle : List Question → List Question) :
    List Question :=
  let metadatas := roleMetadatas index role
  if metadatas.isEmpty then []
  else (shuffle (metadatas.map toQuestion)).take num_questions

/-! ## The stateless API (src/api.py) -/

/-- A feedback oracle: `get_feedback(score, total_questions, role)`
(src/tool.py lines 103-129) calls an external LLM; `Except.error` models the
call raising. -/
abbrev FeedbackOracle := Nat → Nat → String → Except String String

/-- The characters Python's default `str.strip()` removes (the ASCII
whitespace characters; the embedding models ASCII text). -/
def pySpace (c : Char) : Bool :=
  c = ' ' || c = '\t' || c = '\n' || c = '\x0d' || c = '\x0b' || c = '\x0c'

/-- Python `str.lower()` on one ASCII character. -/
def pyLowerChar (c : Char) : Char :=
  if 'A' ≤ c ∧ c ≤ 'Z' then Char.ofNat (c.toNat + 32) else c

/-- Python `str.strip()`: drop leading and trailing whitespace. -/
def pyStrip (l : List Char) : List Char :=
  ((l.dropWhile pySpace).reverse.dropWhile pySpace).reverse

/-- `s.strip().lower()`, the normalisation both sides of the comparison in
src/api.py line 187 go through. -/
def stripLower (s : String) : String :=
  ⟨(pyStrip s.data).map pyLowerChar⟩

/-- The scoring loop of `submit_assessment` (src/api.py lines 185-188):
fold over `zip(answers, questions)`, incrementing when the stripped,
lowercased strings agree. -/
def countCorrect (answers : List String) (questions : List Question) : Nat :=
  (answers.zip questions).foldl
    (fun acc p => if stripLower p.1 = stripLower p.2.answer then acc + 1 else acc) 0

/-- Round a rational to two decimal places: `round(percentage, 2)`
(src/api.py line 205), at rational precision. -/
def round2 (q : ℚ) : ℚ :=
  (round (q * 100) : ℤ) / 100

/-- Render a non-negative rational with one decimal place: the `:.1f` format
of src/api.py line 199, at rational precision. -/
def fmt1 (q : ℚ) : String :=
  let t := (round (q * 10) : ℤ).toNat
  Nat.repr (t / 10) ++ "." ++ Nat.repr (t % 10)

/-- The local fallback feedback string of src/api.py line 199. -/
def fallbackFeedback (score total : Nat) (pct : ℚ) : String :=
  "Assessment completed with a score of " ++ Nat.repr score ++ " out of "
    ++ Nat.repr total ++ " questions correct (" ++ fmt1 pct
    ++ "%). Detailed feedback is temporarily unavailable."

/-- The response model of `/assessment/submit` (`ResultResponse`, src/api.py
lines 101-106). -/
structure ResultResponse where
  role : String
  score : Nat
  total_questions : Nat
  percentage : ℚ
  feedback : String
deriving DecidableEq, Repr

/-- `submit_assessment` (src/api.py lines 181-207). -/
def submit_assessment (fb : FeedbackOracle) (role : String)
    (answers : List String) (questions : List Question) : ResultResponse :=
  let correct_answers := countCorrect answers questions
  let total_questions := questions.length
  let percentage : ℚ :=
    if 0 < total_questions then (correct_answers : ℚ) / total_questions * 100 else 0
  let feedback :=
    match fb correct_answers total_questions role with
    | .ok f => f
    | .error _ => fallbackFeedback correct_answers total_questions percentage
  { role := role
    score := correct_answers
    total_questions := total_questions
    percentage := round2 percentage
    feedback := feedback }

/-- `submit_assessment` with the error handling of src/api.py lines 195-199
made explicit: the value the `feedback` field gets when the oracle raises. -/
def submitFeedbackOf (fb : FeedbackOracle) (role : String)
    (answers : List String) (questions : List Question) : String :=
  (submit_assessment fb role answers questions).feedback

/-! ## Request validation (pydantic v1, `SubmissionRequest`, src/api.py
lines 78-94)

Pydantic v1 validates fields in declaration order — `role` (line 79), then
`answers` (line 80), then `questions` (line 81) — and passes each field
validator a `values` dict holding only the previously validated fields.
`PartialValues` models that dict; a field is absent (`none`) until its turn
has come. -/

/-- The `values` dict a pydantic v1 field validator receives: previously
validated fields only. -/
structure PartialValues where
  role : Option String := none
  answers : Option (List String) := none
  questions : Option (List Question) := none

/-- The validated request (src/api.py lines 78-81). -/
structure SubmissionRequest where
  role : String
  answers : List String
  questions : List Question
deriving DecidableEq, Repr

/-- `SubmissionRequest.validate_role` (src/api.py lines 83-88): reject a role
that is not a key of `KNOWLEDGE_BASE`. -/
def validate_role (kb : Bank) (v : String) : Except String String :=
  if (kb.map Prod.fst).contains v then .ok v
  else .error ("Role not found")

/-- `SubmissionRequest.validate_answers_length` (src/api.py lines 90-94):
`if 'questions' in values and len(v) != len(values['questions'])`, reject.
The membership test consults the `values` dict of previously validated
fields. -/
def validate_answers_length (values : PartialValues) (v : List String) :
    Except String (List String) :=
  match values.questions with
  | some qs =>
    if v.length ≠ qs.length then
      .error "Number of answers must match number of questions"
    else .ok v
  | none => .ok v

/-- Pydantic v1 validation of a `SubmissionRequest`: run each field's
validator in declaration order (`role`, `answers`, `questions`), each seeing
the previously validated fields. `questions` has no validator. -/
def validateSubmission (kb : Bank) (role : String) (answers : List String)
    (questions : List Question) : Except String SubmissionRequest := do
  let values0 : PartialValues := {}
  let r ← validate_role kb role
  let values1 : PartialValues := { values0 with role := some r }
  let a ← validate_answers_length values1 answers
  let _values2 : PartialValues := { values1 with answers := some a }
  .ok { role := r, answers := a, questions := questions }

/-- The `/assessment/submit` endpoint: pydantic validation of the request
body, then the handler (src/api.py lines 78-94 and 181-207). A validation
error is the client-error (HTTP 4xx) rejection path. -/
def submitEndpoint (kb : Bank) (fb : FeedbackOracle) (role : String)
    (answers : List String) (questions : List Question) :
    Except String ResultResponse :=
  (validateSubmission kb role answers questions).map
    (fun req => submit_assessment fb req.role req.answers req.questions)

/-! ## The Streamlit session UI (src/app.py) -/

/-- The final-screen scoring loop of src/app.py lines 94-97: iterate
`enumerate(questions)` and count `user_answers.get(i) == q['answer']` — a
plain (case-sensitive, untrimmed) string comparison, where a missing key
(`.get` returning `None`) never equals a stored answer. The `user_answers`
dict is an association list keyed by question index. -/
def appScore (questions : List Question) (user_answers : List (Nat × String)) :
    Nat :=
  questions.enum.foldl
    (fun acc p => if user_answers.lookup p.1 = some p.2.answer then acc + 1 else acc) 0

/-- The feedback step of src/app.py lines 103-109: if the session's feedback
string is still empty (falsy), call `get_feedback` with no exception handler,
so an oracle error propagates. -/
def appFeedbackUpdate (fb : FeedbackOracle) (current : String) (score : Nat)
    (total : Nat) (role : String) : Except String String :=
  if current = "" then fb score total role else .ok current

/-! ## Concrete values used by witnesses and counterexamples -/

/-- A concrete question. -/
def exQ1 : Question := { question := "What is 2+2?", options := ["3", "4", "5"], answer := "4" }

/-- A second concrete question. -/
def exQ2 : Question := { question := "Pick B", options := ["A", "B"], answer := "B" }

/-- A concrete one-role bank. -/
def exBank : Bank := [("Engineer", [exQ1, exQ2])]

/-- A feedback oracle whose external call succeeds. -/
def fbOk : FeedbackOracle := fun _ _ _ => .ok "Great work"

/-- A feedback oracle whose external call raises. -/
def fbFail : FeedbackOracle := fun _ _ _ => .error "boom"

/-- A third concrete question, with stored answer `"A"`. -/
def exQA : Question := { question := "Choose A", options := ["A", "B"], answer := "A" }

/-- A stale but role-matching collection: role "Engineer" present, yet only
one of the bank's two questions stored. -/
def staleIndex : List IndexEntry := [mkEntry "Engineer" 0 exQ1]

/-- Whether the two-character delimiter `"||"` occurs as a substring. -/
def containsDD : List Char → Bool
  | [] => false
  | c :: rest =>
    if c = '|' ∧ rest.head? = some '|' then true else containsDD rest

/-! ## Shared helper lemmas -/

theorem foldl_count (p : α → Prop) [DecidablePred p] (l : List α) (acc : Nat) :
    l.foldl (fun a x => if p x then a + 1 else a) acc
      = acc + l.countP (fun x => decide (p x)) := by
  induction l generalizing acc with
  | nil => simp
  | cons x xs ih =>
    by_cases h : p x
    · have step : (List.foldl (fun a x => if p x then a + 1 else a) acc (x :: xs))
          = List.foldl (fun a x => if p x then a + 1 else a) (acc + 1) xs := by
        simp [h]
      rw [step, ih]
      simp [List.countP_cons, h]
      omega
    · simp [List.countP_cons, h, ih]

theorem zip_take_len_right (a : List α) (b : List β) :
    a.zip (b.take a.length) = a.zip b := by
  induction a generalizing b with
  | nil => simp
  | cons x xs ih => cases b <;> simp [ih]

theorem zip_take_len_left (a : List α) (b : List β) :
    (a.take b.length).zip b = a.zip b := by
  induction a generalizing b with
  | nil => simp
  | cons x xs ih => cases b <;> simp [ih]

theorem countCorrect_take_questions (answers : List String)
    (questions : List Question) :
    countCorrect answers (questions.take answers.length)
      = countCorrect answers questions := by
  unfold countCorrect
  rw [zip_take_len_right]

theorem countCorrect_take_answers (answers : List String)
    (questions : List Question) :
    countCorrect (answers.take questions.length) questions
      = countCorrect answers questions := by
  unfold countCorrect
  rw [zip_take_len_left]

/-! ## C9 -/

/-- C9: for every role string with zero entries in the index (unknown roles
included), `get_questions_for_role` returns the empty list; being a total
function of the model it raises nothing. -/
theorem sample_unknown_role_empty (index : List IndexEntry) (role : String)
    (num : Nat) (shuffle : List Question → List Question)
    (h : ∀ e ∈ index, e.role ≠ role) :
    get_questions_for_role index role num shuffle = [] := by
  have hm : roleMetadatas index role = [] := by
    simp only [roleMetadatas, List.filter_eq_nil_iff, decide_eq_true_eq]
    exact h
  simp [get_questions_for_role, hm]

/-- Witness for C9 at a concrete index and an unknown role. -/
theorem sample_unknown_role_empty_witness :
    get_questions_for_role [mkEntry "Engineer" 0 exQ1] "Designer" 3 id = [] :=
  sample_unknown_role_empty [mkEntry "Engineer" 0 exQ1] "Designer" 3 id
    (by decide)

/-! ## C10 -/

/-- C10: `submit_assessment` scores over `zip(answers, questions)`: with
fewer answers than questions only the first `len(answers)` pairs can score
(the score agrees with the one computed over the questions truncated to
`len(answers)`), while `total_questions` and the percentage denominator stay
`len(questions)`; answers beyond `len(questions)` are ignored entirely (the
whole response is unchanged by dropping them). -/
theorem submit_truncation (fb : FeedbackOracle) (role : String)
    (answers : List String) (questions : List Question) :
    (submit_assessment fb role answers questions).total_questions = questions.length
    ∧ (submit_assessment fb role answers questions).score
        = (submit_assessment fb role answers (questions.take answers.length)).score
    ∧ submit_assessment fb role answers questions
        = submit_assessment fb role (answers.take questions.length) questions
    ∧ (0 < questions.length →
        (submit_assessment fb role answers questions).percentage
          = round2 ((countCorrect answers questions : ℚ) / (questions.length : ℚ) * 100)) := by
  refine ⟨rfl, ?_, ?_, ?_⟩
  · simp [submit_assessment, countCorrect_take_questions]
  · simp [submit_assessment, countCorrect_take_answers]
  · intro h
    simp [submit_assessment, h]

/-- Witness for C10: one answer against two questions. -/
theorem submit_truncation_witness :
    (submit_assessment fbOk "Engineer" ["4"] [exQ1, exQ2]).total_questions
        = [exQ1, exQ2].length
    ∧ (submit_assessment fbOk "Engineer" ["4"] [exQ1, exQ2]).score
        = (submit_assessment fbOk "Engineer" ["4"]
            ([exQ1, exQ2].take (["4"] : List String).length)).score
    ∧ submit_assessment fbOk "Engineer" ["4"] [exQ1, exQ2]
        = submit_assessment fbOk "Engineer"
            ((["4"] : List String).take [exQ1, exQ2].length) [exQ1, exQ2]
    ∧ (submit_assessment fbOk "Engineer" ["4"] [exQ1, exQ2]).percentage
        = round2 ((countCorrect ["4"] [exQ1, exQ2] : ℚ) / ([exQ1, exQ2].length : ℚ) * 100) :=
  ⟨(submit_truncation fbOk "Engineer" ["4"] [exQ1, exQ2]).1,
   (submit_truncation fbOk "Engineer" ["4"] [exQ1, exQ2]).2.1,
   (submit_truncation fbOk "Engineer" ["4"] [exQ1, exQ2]).2.2.1,
   (submit_truncation fbOk "Engineer" ["4"] [exQ1, exQ2]).2.2.2 (by decide)⟩

/-! ## C5 -/

theorem populate_map_role (kb : Bank) :
    (populate kb).map IndexEntry.role
      = kb.flatMap (fun rq => List.replicate rq.2.length rq.1) := by
  unfold populate
  rw [List.map_flatMap]
  congr 1
  funext rq
  rw [List.map_map]
  have : (IndexEntry.role ∘ fun iq : Nat × Question => mkEntry rq.1 iq.1 iq.2)
      = fun _ => rq.1 := by
    funext iq
    rfl
  rw [this, List.map_const', List.enum_length]

theorem roles_of_populate (kb : Bank)
    (h : ∀ rq ∈ kb, rq.2 ≠ ([] : List Question)) :
    rolesOfEntries (populate kb) = rolesOfBank kb := by
  unfold rolesOfEntries rolesOfBank
  ext r
  simp only [List.mem_toFinset, populate_map_role, List.mem_flatMap,
    List.mem_replicate, List.mem_map]
  constructor
  · rintro ⟨rq, hrq, _, rfl⟩
    exact ⟨rq, hrq, rfl⟩
  · rintro ⟨rq, hrq, rfl⟩
    refine ⟨rq, hrq, ?_, rfl⟩
    have := h rq hrq
    intro hlen
    exact this (List.length_eq_zero.mp hlen)

theorem populate_ne_nil (kb : Bank)
    (h : ∀ rq ∈ kb, rq.2 ≠ ([] : List Question)) (hne : kb ≠ []) :
    populate kb ≠ [] := by
  match kb with
  | [] => exact absurd rfl hne
  | rq :: tl =>
    have hq : rq.2 ≠ [] := h rq (List.mem_cons_self rq tl)
    unfold populate
    simp only [List.flatMap_cons, ne_eq, List.append_eq_nil, List.map_eq_nil_iff,
      List.enum_eq_nil, not_and]
    intro hq2
    exact absurd hq2 hq

/-- C5: reconciliation is idempotent. Running `setup_knowledge_base` a second
time on the state the first run left behind changes nothing (same entries,
hence same entry count and ids); moreover, when every bank role has at least
one question (and the bank is non-empty), the second run takes the skip
branch and performs no repopulation at all. -/
theorem setup_idempotent (kb : Bank) (st : Option (List IndexEntry)) :
    setup_knowledge_base kb (some (setup_knowledge_base kb st))
        = setup_knowledge_base kb st
    ∧ ((∀ rq ∈ kb, rq.2 ≠ ([] : List Question)) → kb ≠ [] →
        repopulates kb (some (setup_knowledge_base kb st)) = false) := by
  constructor
  · by_cases h1 : repopulates kb st = true
    · have e1 : setup_knowledge_base kb st = populate kb := by
        simp [setup_knowledge_base, h1]
      rw [e1]
      by_cases h2 : repopulates kb (some (populate kb)) = true <;>
        simp [setup_knowledge_base, h2]
    · match st with
      | none => simp [repopulates] at h1
      | some entries =>
        have e1 : setup_knowledge_base kb (some entries) = entries := by
          simp [setup_knowledge_base, h1]
        rw [e1]
        exact e1
  · intro hq hkb
    by_cases h1 : repopulates kb st = true
    · have e1 : setup_knowledge_base kb st = populate kb := by
        simp [setup_knowledge_base, h1]
      rw [e1]
      have hr := roles_of_populate kb hq
      have hn := populate_ne_nil kb hq hkb
      simp [repopulates, hr, hn]
    · match st with
      | none => simp [repopulates] at h1
      | some entries =>
        have e1 : setup_knowledge_base kb (some entries) = entries := by
          simp [setup_knowledge_base, h1]
        rw [e1]
        exact Bool.not_eq_true _ |>.mp h1

/-- Witness for C5 at a concrete bank and an initially absent collection. -/
theorem setup_idempotent_witness :
    setup_knowledge_base exBank (some (setup_knowledge_base exBank none))
        = setup_knowledge_base exBank none
    ∧ repopulates exBank (some (setup_knowledge_base exBank none)) = false :=
  ⟨(setup_idempotent exBank none).1,
   (setup_idempotent exBank none).2 (by decide) (by decide)⟩

/-! ## C1 -/

/-- C1: the answers/questions length check never fires. In pydantic v1 the
`answers` validator (src/api.py lines 90-94) runs before the `questions`
field has been validated, so `'questions' in values` is false and the
length-mismatch guard is dead code: a submission with one answer against two
questions sails through validation and is scored (here: score 1 of 2,
percentage 50), instead of being rejected with a client error. -/
theorem length_mismatch_not_rejected :
    (["4"] : List String).length ≠ [exQ1, exQ2].length
    ∧ submitEndpoint exBank fbOk "Engineer" ["4"] [exQ1, exQ2]
        = .ok { role := "Engineer", score := 1, total_questions := 2,
                percentage := 50, feedback := "Great work" } := by
  constructor
  · decide
  · have hval : validateSubmission exBank "Engineer" ["4"] [exQ1, exQ2]
        = .ok { role := "Engineer", answers := ["4"], questions := [exQ1, exQ2] } := by
      decide
    have hc : countCorrect ["4"] [exQ1, exQ2] = 1 := by decide
    simp only [submitEndpoint, hval, Except.map, submit_assessment, hc, fbOk,
      List.length_cons, List.length_nil, Except.ok.injEq]
    norm_num [round2, round_eq, ResultResponse.mk.injEq]

/-! ## C2 -/

/-- Counterexample to C2: on the Streamlit final-screen scoring path
(src/app.py lines 94-97) the stored answers `["A", "B"]` against recorded
user answers `["a", " B "]` score 0, not 2 — that path compares strings
exactly, with no trimming or lowercasing. The stateless API path does score 2
on the same data. -/
theorem app_scoring_exact_match_cex :
    appScore [exQA, exQ2] [(0, "a"), (1, " B ")] = 0
    ∧ countCorrect ["a", " B "] [exQA, exQ2] = 2 := by
  constructor
  · decide
  · decide

/-- C2 amended: the two scoring paths differ. The stateless
`submit_assessment` counts a question correct iff the user's answer matches
the stored answer after stripping whitespace and lowercasing both sides,
while the session UI's final scoring counts a question correct iff the
recorded choice for its index is exactly (case-sensitively, untrimmed) the
stored answer string. -/
theorem scoring_paths_characterised (answers : List String)
    (questions : List Question) (ua : List (Nat × String)) :
    countCorrect answers questions
      = (answers.zip questions).countP
          (fun p => decide (stripLower p.1 = stripLower p.2.answer))
    ∧ appScore questions ua
      = questions.enum.countP
          (fun p => decide (ua.lookup p.1 = some p.2.answer)) := by
  constructor
  · have h := foldl_count
      (fun p : String × Question => stripLower p.1 = stripLower p.2.answer)
      (answers.zip questions) 0
    simpa [countCorrect] using h
  · have h := foldl_count
      (fun p : Nat × Question => ua.lookup p.1 = some p.2.answer)
      questions.enum 0
    simpa [appScore] using h

/-! ## C3 -/

/-- Counterexample to C3: the Streamlit caller of `get_feedback`
(src/app.py lines 103-109) has no exception handler, so when the external
call raises the failure propagates instead of being replaced by the local
fallback string. -/
theorem app_feedback_error_propagates_cex :
    appFeedbackUpdate fbFail "" 1 2 "Engineer" = Except.error "boom" := by
  decide

/-- C3 amended: only the stateless API caller recovers. If the external
feedback call raises, `submit_assessment` (src/api.py lines 195-199)
substitutes the deterministic local fallback string, while the Streamlit
feedback step passes the error through. -/
theorem submit_feedback_fallback (fb : FeedbackOracle) (e role : String)
    (answers : List String) (questions : List Question) (score total : Nat)
    (hfb : ∀ s t r, fb s t r = .error e) :
    (submit_assessment fb role answers questions).feedback
      = fallbackFeedback (countCorrect answers questions) questions.length
          (if 0 < questions.length
            then (countCorrect answers questions : ℚ) / (questions.length : ℚ) * 100
            else 0)
    ∧ appFeedbackUpdate fb "" score total role = .error e := by
  constructor
  · simp [submit_assessment, hfb]
  · simp [appFeedbackUpdate, hfb]

/-- Witness for the amended C3 at a concrete failing oracle. -/
theorem submit_feedback_fallback_witness :
    (submit_assessment fbFail "Engineer" ["a"] [exQA]).feedback
      = fallbackFeedback (countCorrect ["a"] [exQA]) [exQA].length
          (if 0 < [exQA].length
            then (countCorrect ["a"] [exQA] : ℚ) / ([exQA].length : ℚ) * 100
            else 0)
    ∧ appFeedbackUpdate fbFail "" 3 10 "Engineer" = .error "boom" :=
  submit_feedback_fallback fbFail "boom" "Engineer" ["a"] [exQA] 3 10
    (fun _ _ _ => rfl)

/-! ## C6 -/

/-- C6: for a role with `k` indexed records, sampling returns exactly
`min k count` records, drawn without reuse from the role's records (the
result is a sub-permutation of the `k` rebuilt question records, so no stored
entry — hence no id — is used twice), and when `count ≥ k` the result is a
permutation of all `k` records. Holds for every shuffle function that
permutes its input, which is all `random.shuffle` does. -/
theorem sample_min_distinct (index : List IndexEntry) (role : String)
    (num : Nat) (shuffle : List Question → List Question)
    (hsh : ∀ l, List.Perm (shuffle l) l) :
    (get_questions_for_role index role num shuffle).length
        = min ((roleMetadatas index role).length) num
    ∧ List.Subperm (get_questions_for_role index role num shuffle)
        ((roleMetadatas index role).map toQuestion)
    ∧ ((roleMetadatas index role).length ≤ num →
        List.Perm (get_questions_for_role index role num shuffle)
          ((roleMetadatas index role).map toQuestion)) := by
  have hq : ∀ (qs : List Question), (shuffle qs).length = qs.length :=
    fun qs => (hsh qs).length_eq
  by_cases hm : (roleMetadatas index role).isEmpty
  · have hnil : roleMetadatas index role = [] := by
      simpa [List.isEmpty_iff] using hm
    simp [get_questions_for_role, hnil, List.nil_subperm]
  · have hres : get_questions_for_role index role num shuffle
        = (shuffle ((roleMetadatas index role).map toQuestion)).take num := by
      simp [get_questions_for_role, hm]
    rw [hres]
    refine ⟨?_, ?_, ?_⟩
    · rw [List.length_take, hq, List.length_map, Nat.min_comm]
    · exact ((List.take_sublist _ _).subperm).trans (hsh _).subperm
    · intro hk
      rw [List.take_of_length_le]
      · exact hsh _
      · rw [hq, List.length_map]
        exact hk

/-- Witness for C6 at the populated concrete bank, with the identity
shuffle. -/
theorem sample_min_distinct_witness :
    (get_questions_for_role (populate exBank) "Engineer" 5 id).length
        = min ((roleMetadatas (populate exBank) "Engineer").length) 5
    ∧ List.Subperm (get_questions_for_role (populate exBank) "Engineer" 5 id)
        ((roleMetadatas (populate exBank) "Engineer").map toQuestion)
    ∧ ((roleMetadatas (populate exBank) "Engineer").length ≤ 5 →
        List.Perm (get_questions_for_role (populate exBank) "Engineer" 5 id)
          ((roleMetadatas (populate exBank) "Engineer").map toQuestion)) :=
  sample_min_distinct (populate exBank) "Engineer" 5 id
    (fun l => List.Perm.refl l)

/-! ## C4 -/

/-- Counterexample to C4 as stated: starting from a stale collection whose
role set matches the bank's, reconciliation skips repopulation (src/tool.py
line 63 checks only role-set equality and non-emptiness), so afterwards the
index holds 1 entry for role "Engineer" while the bank holds 2 questions. -/
theorem reconcile_stale_count_cex :
    ((setup_knowledge_base exBank (some staleIndex)).filter
        (fun e => e.role = "Engineer")).length ≠ [exQ1, exQ2].length := by
  decide

theorem mem_populate_role (e : IndexEntry) (kb : Bank)
    (he : e ∈ populate kb) : e.role ∈ kb.map Prod.fst := by
  unfold populate at he
  simp only [List.mem_flatMap, List.mem_map] at he
  obtain ⟨rq, hrq, iq, _, rfl⟩ := he
  simp only [List.mem_map]
  exact ⟨rq, hrq, rfl⟩

theorem filter_mkEntries_self (r : String) (qs : List Question) :
    (qs.enum.map (fun iq => mkEntry r iq.1 iq.2)).filter (fun e => e.role = r)
      = qs.enum.map (fun iq => mkEntry r iq.1 iq.2) := by
  apply List.filter_eq_self.mpr
  intro e he
  simp only [List.mem_map] at he
  obtain ⟨iq, _, rfl⟩ := he
  simp [mkEntry]

theorem filter_mkEntries_ne (r r' : String) (h : r' ≠ r) (qs : List Question) :
    (qs.enum.map (fun iq => mkEntry r' iq.1 iq.2)).filter (fun e => e.role = r)
      = [] := by
  apply List.filter_eq_nil_iff.mpr
  intro e he
  simp only [List.mem_map] at he
  obtain ⟨iq, _, rfl⟩ := he
  simp only [mkEntry, decide_eq_true_eq]
  exact h

theorem filter_populate_not_mem (tl : Bank) (r : String)
    (h : r ∉ tl.map Prod.fst) :
    (populate tl).filter (fun e => e.role = r) = [] := by
  apply List.filter_eq_nil_iff.mpr
  intro e he
  have hrole := mem_populate_role e tl he
  simp only [decide_eq_true_eq]
  intro hcontra
  rw [hcontra] at hrole
  exact h hrole

theorem filter_populate (kb : Bank) (r : String) (qs : List Question)
    (hnd : (kb.map Prod.fst).Nodup) (hm : (r, qs) ∈ kb) :
    (populate kb).filter (fun e => e.role = r)
      = qs.enum.map (fun iq => mkEntry r iq.1 iq.2) := by
  induction kb with
  | nil => cases hm
  | cons hd tl ih =>
    obtain ⟨r', qs'⟩ := hd
    have hpop : populate ((r', qs') :: tl)
        = (qs'.enum.map (fun iq => mkEntry r' iq.1 iq.2)) ++ populate tl := by
      simp [populate]
    have hcons := List.nodup_cons.mp
      (show (r' :: tl.map Prod.fst).Nodup by simpa using hnd)
    have hnd' : (tl.map Prod.fst).Nodup := hcons.2
    have hout : r' ∉ tl.map Prod.fst := hcons.1
    rw [hpop, List.filter_append]
    rcases List.mem_cons.mp hm with heq | htl
    · cases heq
      rw [filter_mkEntries_self, filter_populate_not_mem tl _ hout,
        List.append_nil]
    · have hrne : r' ≠ r := by
        intro h
        subst h
        exact hout (List.mem_map.mpr ⟨(r', qs), htl, rfl⟩)
      rw [filter_mkEntries_ne r r' hrne, List.nil_append]
      exact ih hnd' htl

/-- C4 amended: whenever reconciliation actually repopulates (the collection
was absent, empty, or had a differing role set), the resulting index holds,
for every bank role `r`, exactly the entries of `r`'s questions in bank
order with sequential ordinals starting at 0 — and nothing else under that
role. When the skip branch is taken instead, a stale entry count can
survive (see the counterexample). -/
theorem reconcile_populates_roles (kb : Bank) (st : Option (List IndexEntry))
    (hnd : (kb.map Prod.fst).Nodup) (hrep : repopulates kb st = true) :
    ∀ r qs, (r, qs) ∈ kb →
      (setup_knowledge_base kb st).filter (fun e => e.role = r)
        = qs.enum.map (fun iq => mkEntry r iq.1 iq.2) := by
  intro r qs hm
  have hset : setup_knowledge_base kb st = populate kb := by
    simp [setup_knowledge_base, hrep]
  rw [hset]
  exact filter_populate kb r qs hnd hm

/-- Witness for the amended C4 at the concrete bank with an absent
collection. -/
theorem reconcile_populates_roles_witness :
    (exBank.map Prod.fst).Nodup ∧ repopulates exBank none = true
    ∧ (setup_knowledge_base exBank none).filter (fun e => e.role = "Engineer")
        = [exQ1, exQ2].enum.map (fun iq => mkEntry "Engineer" iq.1 iq.2) :=
  ⟨by decide, by decide,
   reconcile_populates_roles exBank none (by decide) (by decide)
     "Engineer" [exQ1, exQ2] (by decide)⟩

/-! ## C7 -/

theorem split2bar_cons (c : Char) (rest : List Char)
    (h : ¬(c = '|' ∧ rest.head? = some '|')) :
    split2bar (c :: rest) = consHead c (split2bar rest) := by
  rw [split2bar.eq_def]
  split
  · rename_i heq
    exact absurd heq (by simp)
  · rename_i rest2 heq
    injection heq with h1 h2
    subst h2
    exact absurd ⟨h1, rfl⟩ h
  · rename_i c2 rest2 hnm heq
    injection heq with h1 h2
    subst h1
    subst h2
    rfl

theorem containsDD_cons_false (c : Char) (rest : List Char)
    (h : containsDD (c :: rest) = false) :
    ¬(c = '|' ∧ rest.head? = some '|') ∧ containsDD rest = false := by
  rw [containsDD.eq_def] at h
  by_cases hc : c = '|' ∧ rest.head? = some '|'
  · simp [hc] at h
  · simp only [if_neg hc] at h
    exact ⟨hc, h⟩

theorem split2bar_no_dd (x : List Char) (h : containsDD x = false) :
    split2bar x = [x] := by
  induction x with
  | nil => rfl
  | cons c rest ih =>
    obtain ⟨hc, hrest⟩ := containsDD_cons_false c rest h
    rw [split2bar_cons c rest hc, ih hrest]
    rfl

theorem split2bar_piece (x : List Char) (hdd : containsDD x = false)
    (hlast : x.getLast? ≠ some '|') (l : List Char) :
    split2bar (x ++ '|' :: '|' :: l) = x :: split2bar l := by
  induction x with
  | nil => rfl
  | cons c rest ih =>
    obtain ⟨hc, hrest⟩ := containsDD_cons_false c rest hdd
    have hcond : ¬(c = '|' ∧ (rest ++ '|' :: '|' :: l).head? = some '|') := by
      cases rest with
      | nil =>
        intro hcontra
        apply hlast
        simp only [List.getLast?_singleton]
        exact congrArg some hcontra.1
      | cons d rest2 =>
        intro hcontra
        exact hc ⟨hcontra.1, by simpa using hcontra.2⟩
    rw [List.cons_append, split2bar_cons c _ hcond]
    cases rest with
    | nil =>
      rw [List.nil_append, split2bar.eq_def]
      rfl
    | cons d rest2 =>
      have hlast2 : (d :: rest2).getLast? ≠ some '|' := by
        intro hcontra
        apply hlast
        rwa [List.getLast?_cons_cons]
      rw [ih hrest hlast2]
      rfl

theorem split2bar_join2bar (xs : List (List Char)) (hne : xs ≠ [])
    (hdd : ∀ x ∈ xs, containsDD x = false)
    (hbar : ∀ x ∈ xs.dropLast, x.getLast? ≠ some '|') :
    split2bar (join2bar xs) = xs := by
  induction xs with
  | nil => exact absurd rfl hne
  | cons x xs ih =>
    cases xs with
    | nil =>
      have hx : join2bar [x] = x := rfl
      rw [hx, split2bar_no_dd x (hdd x (by simp))]
    | cons y ys =>
      have hjoin : join2bar (x :: y :: ys)
          = x ++ '|' :: '|' :: join2bar (y :: ys) := rfl
      have hxdd : containsDD x = false := hdd x (by simp)
      have hxlast : x.getLast? ≠ some '|' := by
        apply hbar
        rw [List.dropLast_cons₂]
        exact List.mem_cons_self x _
      rw [hjoin, split2bar_piece x hxdd hxlast]
      congr 1
      apply ih (by simp)
      · intro z hz
        exact hdd z (List.mem_cons_of_mem x hz)
      · intro z hz
        apply hbar
        rw [List.dropLast_cons₂]
        exact List.mem_cons_of_mem x hz

theorem dropLast_map (f : α → β) (l : List α) :
    (l.map f).dropLast = l.dropLast.map f := by
  induction l with
  | nil => rfl
  | cons x xs ih =>
    cases xs with
    | nil => rfl
    | cons y ys =>
      simp only [List.map_cons, List.dropLast_cons₂] at *
      rw [ih]

/-- Counterexample to C7 as stated: the list `["a|", "b"]` has two elements,
neither containing the delimiter `"||"`, yet serialising and deserialising
through the index encoding yields `["a", "|b"]`: the trailing `"|"` of the
first element merges with the delimiter and the greedy left-to-right split
consumes the wrong pair of bars. -/
theorem option_roundtrip_cex :
    containsDD "a|".data = false ∧ containsDD "b".data = false
    ∧ splitOpts (joinOpts ["a|", "b"]) = ["a", "|b"]
    ∧ (["a", "|b"] : List String) ≠ ["a|", "b"] := by
  decide

/-- C7 amended: an ordered option list round-trips through the `"||"` join
and split provided (beyond the delimiter itself not occurring in any
element) no element before the last ends with the bar character `'|'`; in
particular `["Yes", "No", "Maybe"]` round-trips to itself. -/
theorem splitOpts_joinOpts (xs : List String) (hne : xs ≠ [])
    (hdd : ∀ x ∈ xs, containsDD x.data = false)
    (hbar : ∀ x ∈ xs.dropLast, x.data.getLast? ≠ some '|') :
    splitOpts (joinOpts xs) = xs := by
  unfold splitOpts joinOpts
  have hsplit : split2bar (join2bar (xs.map String.data))
      = xs.map String.data := by
    apply split2bar_join2bar
    · simpa using hne
    · intro y hy
      obtain ⟨s, hs, rfl⟩ := List.mem_map.mp hy
      exact hdd s hs
    · intro y hy
      rw [dropLast_map] at hy
      obtain ⟨s, hs, rfl⟩ := List.mem_map.mp hy
      exact hbar s hs
  show (split2bar (String.mk (join2bar (xs.map String.data))).data).map
      String.mk = xs
  have hdata : (String.mk (join2bar (xs.map String.data))).data
      = join2bar (xs.map String.data) := rfl
  rw [hdata, hsplit, List.map_map]
  exact List.map_id xs

/-- Witness for the amended C7: the spec's example list round-trips. -/
theorem splitOpts_joinOpts_witness :
    splitOpts (joinOpts ["Yes", "No", "Maybe"]) = ["Yes", "No", "Maybe"] :=
  splitOpts_joinOpts ["Yes", "No", "Maybe"] (by decide) (by decide) (by decide)

/-! ## C8 -/

theorem natCharsCore_fuel (f1 f2 n : Nat) (h1 : n < f1) (h2 : n < f2) :
    natCharsCore f1 n = natCharsCore f2 n := by
  induction f1 generalizing f2 n with
  | zero => omega
  | succ f ih =>
    cases f2 with
    | zero => omega
    | succ g =>
      simp only [natCharsCore]
      by_cases h10 : n < 10
      · simp [h10]
      · have hdiv : n / 10 < n := Nat.div_lt_self (by omega) (by omega)
        simp only [if_neg h10]
        congr 1
        exact ih g (n / 10) (by omega) (by omega)

theorem natChars_eq (n : Nat) :
    natChars n = if n < 10 then [Nat.digitChar n]
      else natChars (n / 10) ++ [Nat.digitChar (n % 10)] := by
  unfold natChars
  by_cases h10 : n < 10
  · simp [natCharsCore, h10]
  · have hdiv : n / 10 < n := Nat.div_lt_self (by omega) (by omega)
    simp only [natCharsCore, if_neg h10]
    congr 1
    exact natCharsCore_fuel n (n / 10 + 1) (n / 10) (by omega) (by omega)

theorem digitChar_ne_underscore : ∀ n, n < 10 → Nat.digitChar n ≠ '_' := by
  decide

theorem digitChar_inj :
    ∀ m, m < 10 → ∀ n, n < 10 → Nat.digitChar m = Nat.digitChar n → m = n := by
  decide

theorem natChars_no_underscore (n : Nat) : '_' ∉ natChars n := by
  induction n using Nat.strong_induction_on with
  | _ n ih =>
    rw [natChars_eq]
    by_cases h : n < 10
    · simp only [if_pos h, List.mem_singleton]
      exact fun hc => digitChar_ne_underscore n h hc.symm
    · simp only [if_neg h, List.mem_append, List.mem_singleton]
      rintro (hc | hc)
      · exact ih (n / 10) (Nat.div_lt_self (by omega) (by omega)) hc
      · exact digitChar_ne_underscore (n % 10) (Nat.mod_lt n (by omega)) hc.symm

theorem natChars_ne_nil (n : Nat) : natChars n ≠ [] := by
  rw [natChars_eq]
  by_cases h : n < 10 <;> simp [h]

theorem natChars_inj : ∀ m n, natChars m = natChars n → m = n := by
  intro m
  induction m using Nat.strong_induction_on with
  | _ m ih =>
    intro n h
    rw [natChars_eq m, natChars_eq n] at h
    by_cases hm : m < 10 <;> by_cases hn : n < 10
    · simp only [if_pos hm, if_pos hn, List.cons.injEq] at h
      exact digitChar_inj m hm n hn h.1
    · simp only [if_pos hm, if_neg hn] at h
      have hlen := congrArg List.length h
      simp only [List.length_singleton, List.length_append] at hlen
      have hz : (natChars (n / 10)).length = 0 := by omega
      exact absurd (List.length_eq_zero.mp hz) (natChars_ne_nil _)
    · simp only [if_neg hm, if_pos hn] at h
      have hlen := congrArg List.length h
      simp only [List.length_singleton, List.length_append] at hlen
      have hz : (natChars (m / 10)).length = 0 := by omega
      exact absurd (List.length_eq_zero.mp hz) (natChars_ne_nil _)
    · simp only [if_neg hm, if_neg hn] at h
      obtain ⟨h1, h2⟩ := List.append_inj' h rfl
      have e2 : m % 10 = n % 10 := by
        apply digitChar_inj _ (Nat.mod_lt m (by omega)) _ (Nat.mod_lt n (by omega))
        injection h2
      have e1 : m / 10 = n / 10 :=
        ih (m / 10) (Nat.div_lt_self (by omega) (by omega)) (n / 10) h1
      omega

theorem append_underscore_inj (a : List Char) :
    ∀ (c b d : List Char), '_' ∉ a → '_' ∉ c →
      a ++ '_' :: b = c ++ '_' :: d → a = c ∧ b = d := by
  induction a with
  | nil =>
    intro c b d _ hc h
    cases c with
    | nil => simpa using h
    | cons y cs =>
      simp only [List.nil_append, List.cons_append, List.cons.injEq] at h
      exact absurd (by simp [← h.1]) hc
  | cons x as ih =>
    intro c b d ha hc h
    cases c with
    | nil =>
      simp only [List.cons_append, List.nil_append, List.cons.injEq] at h
      exact absurd (by simp [h.1]) ha
    | cons y cs =>
      simp only [List.cons_append, List.cons.injEq] at h
      obtain ⟨hxy, hrest⟩ := h
      have ha' : '_' ∉ as := fun hmem => ha (List.mem_cons_of_mem x hmem)
      have hc' : '_' ∉ cs := fun hmem => hc (List.mem_cons_of_mem y hmem)
      obtain ⟨e1, e2⟩ := ih cs b d ha' hc' hrest
      exact ⟨by rw [hxy, e1], e2⟩

/-- Counterexample to C8 as stated: the id derivation is not injective over
all (role, ordinal) pairs — distinct roles `"a b"` and `"a_b"` both
normalise to `"a_b"`, so `("a b", 0)` and `("a_b", 0)` get the same id. -/
theorem idOf_collision_cex :
    idOf "a b" 0 = idOf "a_b" 0 ∧ ("a b" : String) ≠ "a_b" := by
  decide

/-- C8 amended: the id derivation separates any two (role, ordinal) pairs
provided the space-to-underscore normalisation does not identify the two
roles (which holds in particular whenever the roles are equal, and whenever
no two distinct bank roles collide after replacing spaces with
underscores). Ordinals always separate ids within one role because the
decimal suffix after the last underscore contains no underscore. -/
theorem idOf_inj (r1 r2 : String) (i1 i2 : Nat)
    (hnorm : replaceSpaces r1 = replaceSpaces r2 → r1 = r2)
    (hne : ¬(r1 = r2 ∧ i1 = i2)) :
    idOf r1 i1 ≠ idOf r2 i2 := by
  intro h
  have hdata : replaceSpaces r1 ++ '_' :: natChars i1
      = replaceSpaces r2 ++ '_' :: natChars i2 := congrArg String.data h
  have hrev := congrArg List.reverse hdata
  simp only [List.reverse_append, List.reverse_cons] at hrev
  have hshape : ∀ (x y : List Char),
      (y.reverse ++ ['_']) ++ x.reverse = y.reverse ++ '_' :: x.reverse := by
    intro x y
    simp
  rw [hshape (replaceSpaces r1) (natChars i1),
      hshape (replaceSpaces r2) (natChars i2)] at hrev
  have hnu1 : '_' ∉ (natChars i1).reverse := by
    simpa using natChars_no_underscore i1
  have hnu2 : '_' ∉ (natChars i2).reverse := by
    simpa using natChars_no_underscore i2
  obtain ⟨e1, e2⟩ := append_underscore_inj (natChars i1).reverse
    (natChars i2).reverse (replaceSpaces r1).reverse (replaceSpaces r2).reverse
    hnu1 hnu2 hrev
  have hi : i1 = i2 := natChars_inj i1 i2 (List.reverse_injective e1)
  have hr : r1 = r2 := hnorm (List.reverse_injective e2)
  exact hne ⟨hr, hi⟩

/-- Witness for the amended C8: within one role, distinct ordinals give
distinct ids. -/
theorem idOf_inj_witness :
    idOf "Data Analyst" 0 ≠ idOf "Data Analyst" 1 :=
  idOf_inj "Data Analyst" "Data Analyst" 0 1 (fun _ => rfl) (by decide)
